import Mathlib

/-
  Verification development for the portfolio_dashboard repository.

  Shallow embedding of the core components named by the specification:
  * dYdX v4 position processing with pro-rata equity attribution
    (src/wallet_processing/dydxv4.py and src/preprocessing/dydxv4.py),
  * the enrichment steps of main.py (value/equity/notional filling, the
    small-value filter),
  * the beta estimator (src/utils/beta_calculator.py) and the two-source
    fallback orchestration in main.py.

  Conventions: Python floats are modelled as exact rationals; a field that
  can hold NaN is modelled as an Option (none = NaN).  Division results
  that can be non-finite use the FVal type below, which mirrors numpy
  semantics (0/0 = NaN, c/0 = signed infinity).  Time stamps are integers
  (seconds).  Aligned pandas series are modelled as equal-length lists.
-/

/-- Result of a floating-point computation: a finite value (an exact
rational), a signed infinity, or NaN. -/
inductive FVal where
  | fin (q : ℚ)
  | pinf
  | ninf
  | nan
  deriving DecidableEq

/-- Numpy float division on NaN-able operands (none = NaN): NaN propagates,
0/0 yields NaN, c/0 with c nonzero yields a signed infinity. -/
def fdiv : Option ℚ → Option ℚ → FVal
  | some c, some v =>
      if v = 0 then (if c = 0 then .nan else if 0 < c then .pinf else .ninf)
      else .fin (c / v)
  | _, _ => .nan

/-! ## dYdX v4 wallet processing (src/wallet_processing/dydxv4.py) -/

/-- Raw perpetual position record from the dYdX v4 indexer, with the fields
used by wallet_processing/dydxv4.  oraclePrice stands for the value of
fetch_dydxv4_oracle_price (or the entry price when that fetch fails, as the
source substitutes).  closedAt is the parsed close timestamp in seconds,
meaningful for CLOSED rows. -/
structure PerpRaw where
  status : String
  size : ℚ
  entryPrice : ℚ
  oraclePrice : ℚ
  closedAt : Int
  market : String
  deriving DecidableEq

/-- Processed position row: the fields of the dict built by
wallet_processing/dydxv4.create_position that the claims are about.
equity and notional can be NaN (none). -/
structure DPos where
  position_type : String
  symbol : String
  amount : ℚ
  price : ℚ
  value : ℚ
  equity : Option ℚ
  notional : Option ℚ
  deriving DecidableEq

/-- create_position with position_type perps (lines 40-92): price is the
oracle price, equity is left NaN (filled by the attribution step),
notional = abs(price * amount).  The symbol is kept as the raw market
string; the source's suffix stripping is irrelevant to the claims. -/
def createPerpPosition (p : PerpRaw) : DPos :=
  { position_type := "perps"
    symbol := p.market
    amount := p.size
    price := p.oraclePrice
    value := p.oraclePrice * p.size
    equity := none
    notional := some |p.oraclePrice * p.size| }

/-- Raw asset balance record (fetch_dydxv4_user_assets entry). -/
structure AssetRaw where
  symbol : String
  size : ℚ
  deriving DecidableEq

/-- create_position with position_type cash for a USDC balance: price 1,
value and equity equal to the balance. -/
def createCashPosition (a : AssetRaw) : DPos :=
  { position_type := "cash"
    symbol := a.symbol
    amount := a.size
    price := 1
    value := 1 * a.size
    equity := some a.size
    notional := some |1 * a.size| }

/-- Open positions run through create_position, in order (lines 184-190). -/
def openPerps (raw : List PerpRaw) : List DPos :=
  (raw.filter (fun p => decide (p.status = "OPEN"))).map createPerpPosition

/-- Total notional accumulated over the open positions (lines 184-190).
Open perp notionals are always finite, so the getD default is inert. -/
def totalNotional (raw : List PerpRaw) : ℚ :=
  ((openPerps raw).map (fun p => p.notional.getD 0)).sum

/-- Pro-rata equity attribution over the open positions (lines 192-196):
equity := (notional / total_notional) * total_equity. -/
def prorataEquity (opens : List DPos) (totalN totalEquity : ℚ) : List DPos :=
  opens.map (fun p => { p with equity := some (p.notional.getD 0 / totalN * totalEquity) })

/-- Closed positions whose close time falls inside [startDate, endDate]
(lines 198-204); they are run through create_position and appended with
equity still NaN. -/
def closedInRange (raw : List PerpRaw) (startDate endDate : Int) : List DPos :=
  (raw.filter (fun p =>
      decide (p.status = "CLOSED" ∧ startDate ≤ p.closedAt ∧ p.closedAt ≤ endDate))).map
    createPerpPosition

/-- USDC cash positions appended when there are no open perps (lines
206-214): only strictly positive USDC balances, and the notional field is
overwritten with np.nan after creation. -/
def usdcCashPositions (assets : List AssetRaw) : List DPos :=
  (assets.filter (fun a => decide (a.symbol = "USDC" ∧ 0 < a.size))).map
    (fun a => { createCashPosition a with notional := none })

/-- wallet_processing/dydxv4.process_dydxv4_positions.  The division
notional / total_notional (line 194) runs once per open position with no
zero guard, so with at least one open position and zero total notional
Python raises ZeroDivisionError, modelled as Except.error. -/
def process_dydxv4_positions (raw : List PerpRaw) (assets : List AssetRaw)
    (totalEquity : ℚ) (startDate endDate : Int) : Except String (List DPos) :=
  let opens := openPerps raw
  let totalN := totalNotional raw
  if opens ≠ [] ∧ totalN = 0 then
    Except.error "ZeroDivisionError"
  else
    Except.ok (prorataEquity opens totalN totalEquity ++
      closedInRange raw startDate endDate ++
      (if opens = [] then usdcCashPositions assets else []))

/-! ## dYdX v4 preprocessing (src/preprocessing/dydxv4.py) -/

/-- Raw perpetual position record with the fields used by
preprocessing/dydxv4.process_dydxv4_data.  closedAt is the parsed close
timestamp in seconds, meaningful for CLOSED rows. -/
structure PerpRaw2 where
  status : String
  closedAt : Int
  size : ℚ
  entryPrice : ℚ
  unrealizedPnl : ℚ
  realizedPnl : ℚ
  netFunding : ℚ
  market : String
  deriving DecidableEq

/-- Position row built by preprocessing/dydxv4.create_position (the fields
the claims are about); here equity is always a finite float. -/
structure BPos where
  type : String
  symbol : String
  amount : ℚ
  price : ℚ
  equity : ℚ
  costBasis : ℚ
  unrealizedGain : ℚ
  realizedGain : ℚ
  deriving DecidableEq

/-- Mark price reconstructed at line 89: entry + upnl/size, guarded to 0
when the size is zero. -/
def markPrice (p : PerpRaw2) : ℚ :=
  if p.size ≠ 0 then p.entryPrice + p.unrealizedPnl / p.size else 0

/-- position_value at line 93. -/
def positionValue (p : PerpRaw2) : ℚ := p.size * markPrice p

/-- create_position of preprocessing/dydxv4 applied to an included row, with
the given attributed equity. -/
def mkBPos (p : PerpRaw2) (equity : ℚ) : BPos :=
  { type := "perps"
    symbol := p.market
    amount := p.size
    price := markPrice p
    equity := equity
    costBasis := p.entryPrice * p.size
    unrealizedGain := p.unrealizedPnl
    realizedGain := p.realizedPnl - p.netFunding }

/-- Rows with status OPEN, in order (lines 78-79 and 95-97). -/
def openRows (raw : List PerpRaw2) : List PerpRaw2 :=
  raw.filter (fun p => decide (p.status = "OPEN"))

/-- Rows with status CLOSED whose close time is less than 24 hours
(86400 s) before now (lines 80-83). -/
def closedRows (now : Int) (raw : List PerpRaw2) : List PerpRaw2 :=
  raw.filter (fun p => decide (p.status = "CLOSED" ∧ now - p.closedAt < 86400))

/-- total_account_position_value accumulated over the open rows (line 97). -/
def totalAccountPositionValue (raw : List PerpRaw2) : ℚ :=
  ((openRows raw).map (fun p => |positionValue p|)).sum

/-- Lines 102-106: guarded pro-rata attribution over the open rows.
collateral_attribution is abs(position_value)/total when the total is
nonzero and 0 otherwise; equity is attribution * total_equity. -/
def attributedOpenRows (raw : List PerpRaw2) (totalEquity : ℚ) : List BPos :=
  (openRows raw).map (fun p =>
    mkBPos p
      ((if totalAccountPositionValue raw ≠ 0
        then |positionValue p| / totalAccountPositionValue raw else 0) * totalEquity))

/-- preprocessing/dydxv4.process_dydxv4_data restricted to one subaccount:
closed-within-24h rows are emitted first with equity 0.0, then the open
rows with guarded pro-rata equity. -/
def process_dydxv4_data (now : Int) (totalEquity : ℚ) (raw : List PerpRaw2) : List BPos :=
  ((closedRows now raw).map (fun p => mkBPos p 0)) ++ attributedOpenRows raw totalEquity

/-! ## Enrichment steps of main.py -/

/-- Row of the positions DataFrame at the enrichment stage of main.py, with
the fields used by fill_missing_prices_values_and_equity and the
small-value filter.  Nullable numeric columns are Options (none = NaN);
asset_type is none when the symbol is absent from the asset dictionary. -/
structure ERow where
  position_type : String
  asset_type : Option String
  amount : ℚ
  price : Option ℚ
  value : Option ℚ
  equity : Option ℚ
  notional : Option ℚ
  deriving DecidableEq

/-- main.py lines 146-150: missing value filled with amount * price
(amount * NaN stays NaN).  The upstream per-symbol price imputation only
affects the price column and is taken as already applied. -/
def fillValue (r : ERow) : ERow :=
  { r with value := match r.value with
      | some v => some v
      | none => r.price.map (fun p => r.amount * p) }

/-- main.py lines 152-156: missing equity defaults to value unless the
position_type is perps. -/
def fillEquity (r : ERow) : ERow :=
  { r with equity :=
      if r.equity = none ∧ r.position_type ≠ "perps" then r.value else r.equity }

/-- main.py lines 158-162: notional is recomputed for every row as
0 if (asset_type == STABLE and value < 0) else abs(value); a NaN value
fails the comparison and propagates through abs. -/
def fillNotional (r : ERow) : ERow :=
  { r with notional := match r.value with
      | none => none
      | some v => some (if r.asset_type = some "STABLE" ∧ v < 0 then 0 else |v|) }

/-- main.fill_missing_prices_values_and_equity: the three column-wise fills
are row-local, so they compose per row. -/
def fill_missing_prices_values_and_equity (rows : List ERow) : List ERow :=
  rows.map (fun r => fillNotional (fillEquity (fillValue r)))

/-- main.py line 184: keep only rows whose abs(value) is at least 1; a NaN
value compares False and the row is dropped. -/
def filterSmallValues (rows : List ERow) : List ERow :=
  rows.filter (fun r => match r.value with
    | some v => decide (1 ≤ |v|)
    | none => false)

/-! ## Beta estimator (src/utils/beta_calculator.py) -/

/-- pandas Series.pct_change().dropna() on a gap-free series: consecutive
ratios minus one, the first (NaN) entry dropped. -/
def pctChange (prices : List ℚ) : List ℚ :=
  (prices.zip prices.tail).map (fun q => q.2 / q.1 - 1)

/-- Arithmetic mean of a window. -/
def sampleMean (l : List ℚ) : ℚ := l.sum / l.length

/-- pandas sample variance (ddof = 1): NaN (none) on fewer than two
samples. -/
def sampleVar (l : List ℚ) : Option ℚ :=
  if l.length ≤ 1 then none
  else some (((l.map (fun x => (x - sampleMean l) ^ 2)).sum) / ((l.length : ℚ) - 1))

/-- pandas sample covariance (ddof = 1) of two aligned windows: NaN (none)
on fewer than two samples. -/
def sampleCov (xs ys : List ℚ) : Option ℚ :=
  if xs.length ≤ 1 then none
  else some ((((xs.zip ys).map
      (fun q => (q.1 - sampleMean xs) * (q.2 - sampleMean ys))).sum) / ((xs.length : ℚ) - 1))

/-- Window of w samples ending at index i (inclusive). -/
def windowAt (w i : Nat) (l : List ℚ) : List ℚ := (l.take (i + 1)).drop (i + 1 - w)

/-- Series.rolling(w).var(): NaN until a full window of w samples is
available (min_periods defaults to the window size). -/
def rollingVar (w : Nat) (l : List ℚ) : List (Option ℚ) :=
  (List.range l.length).map (fun i =>
    if i + 1 < w then none else sampleVar (windowAt w i l))

/-- Series.rolling(w).cov(other) on aligned series. -/
def rollingCov (w : Nat) (xs ys : List ℚ) : List (Option ℚ) :=
  (List.range xs.length).map (fun i =>
    if i + 1 < w then none else sampleCov (windowAt w i xs) (windowAt w i ys))

/-- beta_calculator.calculate_beta (lines 5-10): rolling covariance of the
asset returns against the benchmark returns divided elementwise by the
rolling variance of the benchmark returns. -/
def calculate_beta (asset_returns btc_returns : List ℚ) (window : Nat) : List FVal :=
  ((rollingCov window asset_returns btc_returns).zip (rollingVar window btc_returns)).map
    (fun q => fdiv q.1 q.2)

/-- Lines 30, 33 and 36 of beta_calculator for one granularity: the window
is min(len(returns), L) and only the most recent rolling value is kept
(iloc[-1]); none models the IndexError on an empty series, which the
caller catches. -/
def betaLast (asset_returns btc_returns : List ℚ) (L : Nat) : Option FVal :=
  (calculate_beta asset_returns btc_returns (min asset_returns.length L)).getLast?

/-- Per-asset body of add_beta_to_positions (lines 21-41): fetch the
asset's price history (none = the fetch raised), build daily and weekly
returns (the calendar resample('W').ffill() step is passed in as a
function), and take the latest rolling beta of each granularity.  Any
failure inside the try-block leaves BOTH betas NaN, including a daily
value already computed when the weekly step fails. -/
def assetBetas (fetch : String → Option (List ℚ)) (resampleW : List ℚ → List ℚ)
    (btcDailyR btcWeeklyR : List ℚ) (L : Nat) (a : String) : FVal × FVal :=
  match fetch a with
  | none => (.nan, .nan)
  | some data =>
      match betaLast (pctChange data) btcDailyR L,
            betaLast (pctChange (resampleW data)) btcWeeklyR L with
      | some bd, some bw => (bd, bw)
      | _, _ => (.nan, .nan)

/-- Row of the positions DataFrame at the beta stage: idx is the DataFrame
index (used by DataFrame.update alignment). -/
structure BRow where
  idx : Nat
  base_asset : String
  asset_type : Option String
  beta_daily : FVal
  beta_weekly : FVal
  deriving DecidableEq

/-- Lines 44-45: map the per-asset betas onto every row via base_asset. -/
def assignBetas (f : String → FVal × FVal) (rows : List BRow) : List BRow :=
  rows.map (fun r =>
    { r with beta_daily := (f r.base_asset).1, beta_weekly := (f r.base_asset).2 })

/-- Lines 47-50: the stablecoin override, applied after the computation to
every row whose asset_type is STABLE. -/
def overrideStables (rows : List BRow) : List BRow :=
  rows.map (fun r =>
    if r.asset_type = some "STABLE"
    then { r with beta_daily := .fin 0, beta_weekly := .fin 0 } else r)

/-- Per-asset beta pair used by add_beta_to_positions: the benchmark daily
and weekly returns are derived from the benchmark price data (lines 14-16)
and fed to the per-asset computation. -/
def betasOf (fetch : String → Option (List ℚ)) (resampleW : List ℚ → List ℚ)
    (btcData : List ℚ) (L : Nat) : String → FVal × FVal :=
  assetBetas fetch resampleW (pctChange btcData) (pctChange (resampleW btcData)) L

/-- beta_calculator.add_beta_to_positions: compute per-asset betas, map
them onto the rows, then apply the stablecoin override. -/
def add_beta_to_positions (fetch : String → Option (List ℚ)) (resampleW : List ℚ → List ℚ)
    (btcData : List ℚ) (L : Nat) (rows : List BRow) : List BRow :=
  overrideStables (assignBetas (betasOf fetch resampleW btcData L) rows)

/-- Net per-row effect of assignBetas followed by overrideStables. -/
def betaRow (F : String → FVal × FVal) (r : BRow) : BRow :=
  if r.asset_type = some "STABLE"
  then { r with beta_daily := .fin 0, beta_weekly := .fin 0 }
  else { r with beta_daily := (F r.base_asset).1, beta_weekly := (F r.base_asset).2 }

/-- DataFrame.update applied to one row: look up the row with the same
index in the update frame and overwrite only with non-NA values. -/
def updRow (rows2 : List BRow) (r : BRow) : BRow :=
  match rows2.find? (fun s => decide (s.idx = r.idx)) with
  | none => r
  | some s =>
      { r with
        beta_daily := if s.beta_daily = FVal.nan then r.beta_daily else s.beta_daily
        beta_weekly := if s.beta_weekly = FVal.nan then r.beta_weekly else s.beta_weekly }

/-- DataFrame.update on the beta columns: align on the index and overwrite
only with non-NA values. -/
def updateBetas (rows1 rows2 : List BRow) : List BRow :=
  rows1.map (updRow rows2)

/-- main.py lines 229-250: run add_beta_to_positions over all rows with the
primary source, collect the base assets whose beta_daily is still NaN,
rerun add_beta_to_positions with the secondary source on just the rows of
those assets, and merge the result back with DataFrame.update. -/
def mainBetaFallback (primary secondary : String → Option (List ℚ))
    (resampleW : List ℚ → List ℚ) (btc1 btc2 : List ℚ) (L : Nat)
    (rows : List BRow) : List BRow :=
  let rows1 := add_beta_to_positions primary resampleW btc1 L rows
  let missingAssets :=
    (rows1.filter (fun r => decide (r.beta_daily = FVal.nan))).map BRow.base_asset
  let missingRows := rows1.filter (fun r => decide (r.base_asset ∈ missingAssets))
  updateBetas rows1 (add_beta_to_positions secondary resampleW btc2 L missingRows)

/-- Last w samples of a series: the window that the most recent rolling
value is computed over. -/
def lastWindow (w : Nat) (l : List ℚ) : List ℚ := l.drop (l.length - w)

instance {ε α : Type _} [DecidableEq ε] [DecidableEq α] : DecidableEq (Except ε α) :=
  fun x y =>
    match x, y with
    | .error a, .error b =>
        if h : a = b then isTrue (congrArg Except.error h)
        else isFalse (fun hc => h (by cases hc; rfl))
    | .ok a, .ok b =>
        if h : a = b then isTrue (congrArg Except.ok h)
        else isFalse (fun hc => h (by cases hc; rfl))
    | .error _, .ok _ => isFalse (fun hc => by cases hc)
    | .ok _, .error _ => isFalse (fun hc => by cases hc)

/-! ## Helper lemmas -/

theorem sum_div_mul (l : List ℚ) (c E : ℚ) :
    (l.map (fun n => n / c * E)).sum = l.sum / c * E := by
  induction l with
  | nil => simp
  | cons a t ih => simp only [List.map_cons, List.sum_cons, ih]; ring

theorem sum_prorata (ns : List ℚ) (E : ℚ) (h : ns.sum ≠ 0) :
    (ns.map (fun n => n / ns.sum * E)).sum = E := by
  rw [sum_div_mul, div_self h, one_mul]

theorem list_sum_eq_zero_of_nonneg {l : List ℚ} (h0 : ∀ x ∈ l, 0 ≤ x) (h : l.sum = 0) :
    ∀ x ∈ l, x = 0 := by
  induction l with
  | nil => simp
  | cons a t ih =>
    have hts : 0 ≤ t.sum := List.sum_nonneg (fun x hx => h0 x (List.mem_cons_of_mem _ hx))
    have ha : 0 ≤ a := h0 a (List.mem_cons_self _ _)
    rw [List.sum_cons] at h
    intro x hx
    rcases List.mem_cons.1 hx with rfl | hx
    · linarith
    · exact ih (fun y hy => h0 y (List.mem_cons_of_mem _ hy)) (by linarith) x hx

theorem getLast?_map_range {α : Type _} (f : Nat → α) (n : Nat) (hn : n ≠ 0) :
    ((List.range n).map f).getLast? = some (f (n - 1)) := by
  rw [List.getLast?_eq_getElem?]
  simp only [List.length_map, List.length_range]
  rw [List.getElem?_map, List.getElem?_range (by omega)]
  rfl

theorem betaLast_spec (aR bR : List ℚ) (L : Nat)
    (hne : aR ≠ []) (hlen : aR.length = bR.length) :
    betaLast aR bR L =
      some (fdiv (sampleCov (lastWindow (min aR.length L) aR)
                            (lastWindow (min aR.length L) bR))
                 (sampleVar (lastWindow (min aR.length L) bR))) := by
  have hn : aR.length ≠ 0 := fun h => hne (List.eq_nil_of_length_eq_zero h)
  unfold betaLast calculate_beta rollingCov rollingVar
  rw [← hlen, List.zip_map', List.map_map, getLast?_map_range _ _ hn]
  unfold windowAt
  have hidx : aR.length - 1 + 1 = aR.length := by omega
  have hnotlt : ¬ (aR.length < min aR.length L) := by omega
  rw [Function.comp_apply, hidx]
  simp only [if_neg hnotlt]
  rw [List.take_length, hlen, List.take_length]
  unfold lastWindow
  rw [hlen]

theorem sampleMean_replicate (n : Nat) (q : ℚ) (hn : n ≠ 0) :
    sampleMean (List.replicate n q) = q := by
  unfold sampleMean
  rw [List.sum_replicate, List.length_replicate, nsmul_eq_mul]
  exact mul_div_cancel_left₀ q (Nat.cast_ne_zero.2 hn)

theorem sampleVar_replicate (n : Nat) (q : ℚ) (hn : 2 ≤ n) :
    sampleVar (List.replicate n q) = some 0 := by
  unfold sampleVar
  rw [List.length_replicate, if_neg (by omega)]
  have hz : (List.map (fun x => (x - sampleMean (List.replicate n q)) ^ 2)
      (List.replicate n q)).sum = 0 := by
    apply List.sum_eq_zero
    intro x hx
    obtain ⟨a, ha, rfl⟩ := List.mem_map.1 hx
    rw [List.eq_of_mem_replicate ha, sampleMean_replicate n q (by omega)]
    ring
  rw [hz, zero_div]

theorem sampleCov_of_var_zero (xs ys : List ℚ) (hlen : xs.length = ys.length)
    (hvar : sampleVar ys = some 0) : sampleCov xs ys = some 0 := by
  unfold sampleVar at hvar
  by_cases hl : ys.length ≤ 1
  · rw [if_pos hl] at hvar
    exact absurd hvar (by simp)
  rw [if_neg hl] at hvar
  have hnum : (List.map (fun x => (x - sampleMean ys) ^ 2) ys).sum = 0 := by
    have hden : ((ys.length : ℚ) - 1) ≠ 0 := by
      have h2 : (2 : ℚ) ≤ (ys.length : ℚ) := by exact_mod_cast (by omega : 2 ≤ ys.length)
      linarith
    rcases div_eq_zero_iff.1 (Option.some.inj hvar) with h | h
    · exact h
    · exact absurd h hden
  have hdev : ∀ y ∈ ys, y - sampleMean ys = 0 := by
    intro y hy
    have hnn : ∀ x ∈ List.map (fun x => (x - sampleMean ys) ^ 2) ys, 0 ≤ x := by
      intro x hx
      obtain ⟨a, -, rfl⟩ := List.mem_map.1 hx
      positivity
    have hz := list_sum_eq_zero_of_nonneg hnn hnum ((y - sampleMean ys) ^ 2)
      (List.mem_map_of_mem _ hy)
    exact pow_eq_zero_iff (by omega) |>.1 hz
  unfold sampleCov
  rw [if_neg (by omega : ¬ xs.length ≤ 1)]
  have hsum : ((xs.zip ys).map
      (fun q => (q.1 - sampleMean xs) * (q.2 - sampleMean ys))).sum = 0 := by
    apply List.sum_eq_zero
    intro x hx
    obtain ⟨⟨a, b⟩, hab, rfl⟩ := List.mem_map.1 hx
    rw [hdev b (List.of_mem_zip hab).2, mul_zero]
  rw [hsum, zero_div]

theorem fdiv_zero_zero : fdiv (some 0) (some 0) = FVal.nan := by
  simp [fdiv]

theorem lastWindow_of_le (w : Nat) (l : List ℚ) (h : l.length ≤ w) :
    lastWindow w l = l := by
  unfold lastWindow
  rw [Nat.sub_eq_zero_of_le h, List.drop_zero]

/-! ## Claim theorems -/

/-- C2: the claim that zero total notional yields equity 0.0 with no
exception fails on wallet_processing/dydxv4.process_dydxv4_positions:
with one OPEN position of size 0 (so every notional and the total are
exactly zero) the unguarded division at line 194 raises ZeroDivisionError.
The sibling preprocessing/dydxv4.process_dydxv4_data implements the guard
the spec demands and attributes equity 0 to every open position there. -/
theorem c2_zero_total_notional_raises :
    process_dydxv4_positions [⟨"OPEN", 0, 10, 12, 0, "ETH-USD"⟩] [] 500 0 0 =
      Except.error "ZeroDivisionError" ∧
    (process_dydxv4_data 0 500
        [⟨"OPEN", 0, 0, 10, 0, 0, 0, "ETH-USD"⟩, ⟨"OPEN", 0, 0, 10, 0, 0, 0, "BTC-USD"⟩]).map
      BPos.equity = [0, 0] := by
  constructor
  · norm_num [process_dydxv4_positions, openPerps, totalNotional, createPerpPosition,
      List.filter]
  · simp +decide [process_dydxv4_data, closedRows, attributedOpenRows, openRows, markPrice,
      positionValue, totalAccountPositionValue, mkBPos, List.filter]

/-- C6 counterexample: with benchmark daily returns constant 0.01 and asset
daily returns constant 0.02 over 30 samples, the latest rolling beta over
the full 30-sample overlap window is NaN, not a finite number: the
benchmark variance over the window is zero. -/
theorem c6_constant_returns_counterexample :
    betaLast (List.replicate 30 ((2 : ℚ)/100)) (List.replicate 30 ((1 : ℚ)/100)) 180 =
      some FVal.nan := by
  rw [betaLast_spec _ _ _ (by simp) (by simp)]
  have hmin : min (List.replicate 30 ((2 : ℚ)/100)).length 180 = 30 := by simp
  rw [hmin, lastWindow_of_le _ _ (by simp), lastWindow_of_le _ _ (by simp),
    sampleVar_replicate _ _ (by omega),
    sampleCov_of_var_zero _ _ (by simp) (sampleVar_replicate _ _ (by omega)),
    fdiv_zero_zero]

/-- C6 amended: for those constant series the benchmark variance over the
latest full window is exactly zero, the covariance is zero as well, and
the beta evaluates to NaN (0/0) with no exception, consistent with the
zero-variance rule the spec itself states. -/
theorem c6_constant_returns_beta_nan :
    sampleVar (lastWindow 30 (List.replicate 30 ((1 : ℚ)/100))) = some 0 ∧
    sampleCov (lastWindow 30 (List.replicate 30 ((2 : ℚ)/100)))
      (lastWindow 30 (List.replicate 30 ((1 : ℚ)/100))) = some 0 ∧
    betaLast (List.replicate 30 ((2 : ℚ)/100)) (List.replicate 30 ((1 : ℚ)/100)) 180 =
      some FVal.nan := by
  refine ⟨?_, ?_, ?_⟩
  · rw [lastWindow_of_le _ _ (by simp)]
    exact sampleVar_replicate _ _ (by omega)
  · rw [lastWindow_of_le _ _ (by simp), lastWindow_of_le _ _ (by simp)]
    exact sampleCov_of_var_zero _ _ (by simp) (sampleVar_replicate _ _ (by omega))
  · rw [betaLast_spec _ _ _ (by simp) (by simp)]
    have hmin : min (List.replicate 30 ((2 : ℚ)/100)).length 180 = 30 := by simp
    rw [hmin, lastWindow_of_le _ _ (by simp), lastWindow_of_le _ _ (by simp),
      sampleVar_replicate _ _ (by omega),
      sampleCov_of_var_zero _ _ (by simp) (sampleVar_replicate _ _ (by omega)),
      fdiv_zero_zero]

/-- C9: a row survives the abs(value) >= 1 filter of main.py line 184
exactly when its value is present (non-NaN) and at least 1 in absolute
value; in particular every persisted row satisfies abs(value) >= 1. -/
theorem c9_small_value_filter (rows : List ERow) (r : ERow) :
    (r ∈ filterSmallValues rows → ∃ v, r.value = some v ∧ 1 ≤ |v|) ∧
    (r ∈ rows → ∀ v, r.value = some v → 1 ≤ |v| → r ∈ filterSmallValues rows) := by
  constructor
  · intro hmem
    simp only [filterSmallValues, List.mem_filter] at hmem
    obtain ⟨-, hp⟩ := hmem
    cases hv : r.value with
    | none => rw [hv] at hp; simp at hp
    | some v => rw [hv] at hp; exact ⟨v, rfl, by simpa using hp⟩
  · intro hmem v hv hb
    simp only [filterSmallValues, List.mem_filter]
    refine ⟨hmem, ?_⟩
    rw [hv]
    simpa using hb

theorem add_beta_eq_map (fetch : String → Option (List ℚ)) (resampleW : List ℚ → List ℚ)
    (btcData : List ℚ) (L : Nat) (rows : List BRow) :
    add_beta_to_positions fetch resampleW btcData L rows =
      rows.map (betaRow (betasOf fetch resampleW btcData L)) := by
  unfold add_beta_to_positions overrideStables assignBetas
  rw [List.map_map]
  apply List.map_congr_left
  intro r _
  by_cases h : r.asset_type = some "STABLE" <;>
    simp [Function.comp, betaRow, h]

theorem betaRow_idx (F : String → FVal × FVal) (r : BRow) : (betaRow F r).idx = r.idx := by
  unfold betaRow
  split <;> rfl

theorem betaRow_base_asset (F : String → FVal × FVal) (r : BRow) :
    (betaRow F r).base_asset = r.base_asset := by
  unfold betaRow
  split <;> rfl

theorem betaRow_asset_type (F : String → FVal × FVal) (r : BRow) :
    (betaRow F r).asset_type = r.asset_type := by
  unfold betaRow
  split <;> rfl

/-- C3: every position whose asset_type is STABLE leaves
add_beta_to_positions with both beta fields equal to 0, whatever the
rolling regression produced for its base asset (the override at lines
47-50 runs after the computation and wins over it). -/
theorem c3_stable_beta_override (fetch : String → Option (List ℚ))
    (resampleW : List ℚ → List ℚ) (btcData : List ℚ) (L : Nat)
    (rows : List BRow) (r : BRow)
    (hr : r ∈ add_beta_to_positions fetch resampleW btcData L rows)
    (hs : r.asset_type = some "STABLE") :
    r.beta_daily = FVal.fin 0 ∧ r.beta_weekly = FVal.fin 0 := by
  rw [add_beta_eq_map] at hr
  obtain ⟨t, -, rfl⟩ := List.mem_map.1 hr
  by_cases h : t.asset_type = some "STABLE"
  · unfold betaRow
    rw [if_pos h]
    exact ⟨rfl, rfl⟩
  · rw [betaRow_asset_type] at hs
    exact absurd hs h

/-- C3 witness: a concrete STABLE row (whose fetch fails, so the raw
regression would be NaN) ends with both betas 0. -/
theorem c3_stable_beta_override_witness :
    (⟨0, "USDC", some "STABLE", FVal.fin 0, FVal.fin 0⟩ : BRow).beta_daily = FVal.fin 0 ∧
    (⟨0, "USDC", some "STABLE", FVal.fin 0, FVal.fin 0⟩ : BRow).beta_weekly = FVal.fin 0 :=
  c3_stable_beta_override (fun _ => none) id [] 180
    [⟨0, "USDC", some "STABLE", FVal.nan, FVal.nan⟩]
    ⟨0, "USDC", some "STABLE", FVal.fin 0, FVal.fin 0⟩ (by decide) rfl

/-- C7: after the enrichment fills of main.py, a row with a present value v
has notional abs(v), except that a STABLE row with negative value has
notional 0; in particular a STABLE row with positive value keeps
notional abs(v). -/
theorem c7_notional_rule (rows : List ERow) (r : ERow)
    (hr : r ∈ fill_missing_prices_values_and_equity rows) (v : ℚ) (hv : r.value = some v) :
    (r.asset_type = some "STABLE" → v < 0 → r.notional = some 0) ∧
    (r.asset_type = some "STABLE" → 0 < v → r.notional = some |v|) ∧
    (r.asset_type ≠ some "STABLE" → r.notional = some |v|) := by
  unfold fill_missing_prices_values_and_equity at hr
  obtain ⟨t, -, rfl⟩ := List.mem_map.1 hr
  have hv' : (fillEquity (fillValue t)).value = some v := hv
  have hnot : (fillNotional (fillEquity (fillValue t))).notional
      = some (if (fillEquity (fillValue t)).asset_type = some "STABLE" ∧ v < 0
              then 0 else |v|) := by
    simp only [fillNotional, hv']
  refine ⟨fun hs hneg => ?_, fun hs hpos => ?_, fun hs => ?_⟩
  · rw [hnot, if_pos ⟨hs, hneg⟩]
  · rw [hnot, if_neg (fun hc => lt_asymm hpos hc.2)]
  · rw [hnot, if_neg (fun hc => hs hc.1)]

/-- C7 witness: a concrete STABLE row with positive value 5 gets
notional abs(5), not 0. -/
theorem c7_notional_rule_witness :
    (⟨"spot", some "STABLE", 5, some 1, some 5, some 5, some 5⟩ : ERow).notional
      = some |(5 : ℚ)| :=
  (c7_notional_rule [⟨"spot", some "STABLE", 5, some 1, some 5, none, none⟩]
    ⟨"spot", some "STABLE", 5, some 1, some 5, some 5, some 5⟩
    (by decide) 5 rfl).2.1 rfl (by decide)

/-- C10: in process_dydxv4_positions a cash position appears in the output
only when there are no open perpetual positions, and then only for a
strictly positive USDC balance, with its notional set to NaN; conversely
with no open perps every positive USDC balance yields such a cash row. -/
theorem c10_usdc_cash_gating (raw : List PerpRaw) (assets : List AssetRaw)
    (totalEquity : ℚ) (startDate endDate : Int) (out : List DPos)
    (hok : process_dydxv4_positions raw assets totalEquity startDate endDate
      = Except.ok out) :
    (∀ p ∈ out, p.position_type = "cash" →
        openPerps raw = [] ∧ 0 < p.amount ∧ p.notional = none) ∧
    (openPerps raw = [] → ∀ a ∈ assets, a.symbol = "USDC" → 0 < a.size →
        { createCashPosition a with notional := none } ∈ out) := by
  unfold process_dydxv4_positions at hok
  by_cases hcond : openPerps raw ≠ [] ∧ totalNotional raw = 0
  · rw [if_pos hcond] at hok
    cases hok
  rw [if_neg hcond] at hok
  obtain rfl := Except.ok.inj hok
  constructor
  · intro p hp hcash
    rcases List.mem_append.1 hp with hp | hp
    · exfalso
      rcases List.mem_append.1 hp with hp | hp
      · unfold prorataEquity openPerps at hp
        rw [List.map_map] at hp
        obtain ⟨p0, -, rfl⟩ := List.mem_map.1 hp
        exact absurd hcash (by simp [Function.comp, createPerpPosition])
      · unfold closedInRange at hp
        obtain ⟨p0, -, rfl⟩ := List.mem_map.1 hp
        exact absurd hcash (by simp [createPerpPosition])
    · by_cases hopen : openPerps raw = []
      · rw [if_pos hopen] at hp
        unfold usdcCashPositions at hp
        obtain ⟨a, ha, rfl⟩ := List.mem_map.1 hp
        have hfa := (List.mem_filter.1 ha).2
        simp only [decide_eq_true_eq] at hfa
        exact ⟨hopen, hfa.2, rfl⟩
      · rw [if_neg hopen] at hp
        cases hp
  · intro hopen a ha hsym hsize
    rw [if_pos hopen]
    refine List.mem_append.2 (Or.inr ?_)
    unfold usdcCashPositions
    exact List.mem_map_of_mem _
      (List.mem_filter.2 ⟨ha, by simp [hsym, hsize]⟩)

/-- C10 witness: with no perpetual positions and a positive USDC balance
of 100, the snapshot contains the cash position with NaN notional. -/
theorem c10_usdc_cash_gating_witness :
    ∃ out, process_dydxv4_positions [] [⟨"USDC", 100⟩] 100 0 0 = Except.ok out ∧
      { createCashPosition ⟨"USDC", 100⟩ with notional := none } ∈ out := by
  refine ⟨_, rfl, ?_⟩
  exact (c10_usdc_cash_gating [] [⟨"USDC", 100⟩] 100 0 0 _ rfl).2 rfl
    ⟨"USDC", 100⟩ (by decide) rfl (by decide)

/-- C8 counterexample: a position closed inside the run's date range is
included in the process_dydxv4_positions snapshot, but its equity is NaN
(none), not 0 as the claim states. -/
theorem c8_closed_equity_counterexample :
    (process_dydxv4_positions [⟨"CLOSED", 5, 10, 12, 50, "ETH-USD"⟩] [] 1000 0 100).map
      (fun l => l.map DPos.equity) = Except.ok [none] := by
  rfl

/-- C8 amended: every position closed inside the lookback window is
included in the snapshot by both implementations; process_dydxv4_data
(preprocessing) gives it equity 0.0, while process_dydxv4_positions
(wallet_processing) leaves its equity NaN. -/
theorem c8_closed_positions_included (raw : List PerpRaw) (assets : List AssetRaw)
    (totalEquity : ℚ) (startDate endDate : Int) (out : List DPos)
    (hok : process_dydxv4_positions raw assets totalEquity startDate endDate
      = Except.ok out)
    (p : PerpRaw) (hp : p ∈ raw) (hst : p.status = "CLOSED")
    (h1 : startDate ≤ p.closedAt) (h2 : p.closedAt ≤ endDate) :
    (createPerpPosition p ∈ out ∧ (createPerpPosition p).equity = none) ∧
    ∀ (now : Int) (equity2 : ℚ) (raw2 : List PerpRaw2) (q : PerpRaw2),
      q ∈ raw2 → q.status = "CLOSED" → now - q.closedAt < 86400 →
      mkBPos q 0 ∈ process_dydxv4_data now equity2 raw2 ∧ (mkBPos q 0).equity = 0 := by
  constructor
  · unfold process_dydxv4_positions at hok
    by_cases hcond : openPerps raw ≠ [] ∧ totalNotional raw = 0
    · rw [if_pos hcond] at hok
      cases hok
    rw [if_neg hcond] at hok
    obtain rfl := Except.ok.inj hok
    refine ⟨List.mem_append.2 (Or.inl (List.mem_append.2 (Or.inr ?_))), rfl⟩
    unfold closedInRange
    exact List.mem_map_of_mem _ (List.mem_filter.2 ⟨hp, by simp [hst, h1, h2]⟩)
  · intro now equity2 raw2 q hq hqst hqt
    refine ⟨?_, rfl⟩
    unfold process_dydxv4_data
    refine List.mem_append.2 (Or.inl ?_)
    unfold closedRows
    exact List.mem_map_of_mem _ (List.mem_filter.2 ⟨hq, by simp [hqst, hqt]⟩)

/-- C8 witness: a concrete position closed at time 50 inside the window
[0, 100] appears in both snapshots, with equity NaN in the first model and
equity 0 in the second. -/
theorem c8_closed_positions_included_witness :
    (createPerpPosition ⟨"CLOSED", 5, 10, 12, 50, "ETH-USD"⟩ ∈
        (prorataEquity (openPerps [⟨"CLOSED", 5, 10, 12, 50, "ETH-USD"⟩])
            (totalNotional [⟨"CLOSED", 5, 10, 12, 50, "ETH-USD"⟩]) 1000 ++
          closedInRange [⟨"CLOSED", 5, 10, 12, 50, "ETH-USD"⟩] 0 100 ++
          (if openPerps [⟨"CLOSED", 5, 10, 12, 50, "ETH-USD"⟩] = []
           then usdcCashPositions [] else [])) ∧
      (createPerpPosition ⟨"CLOSED", 5, 10, 12, 50, "ETH-USD"⟩).equity = none) ∧
    ∀ (now : Int) (equity2 : ℚ) (raw2 : List PerpRaw2) (q : PerpRaw2),
      q ∈ raw2 → q.status = "CLOSED" → now - q.closedAt < 86400 →
      mkBPos q 0 ∈ process_dydxv4_data now equity2 raw2 ∧ (mkBPos q 0).equity = 0 :=
  c8_closed_positions_included [⟨"CLOSED", 5, 10, 12, 50, "ETH-USD"⟩] [] 1000 0 100 _
    rfl ⟨"CLOSED", 5, 10, 12, 50, "ETH-USD"⟩ (by decide) rfl (by decide) (by decide)

theorem openPerps_notional_nonneg (raw : List PerpRaw) :
    ∀ q ∈ openPerps raw, 0 ≤ q.notional.getD 0 := by
  intro q hq
  unfold openPerps at hq
  obtain ⟨p0, -, rfl⟩ := List.mem_map.1 hq
  exact abs_nonneg _

/-- C1: with positive total notional, process_dydxv4_positions succeeds and
the pro-rata attributed equities over the open positions sum exactly to
the account's total equity, each one nonnegative when the total equity is;
the same holds for the guarded attribution of process_dydxv4_data. -/
theorem c1_prorata_equity (raw : List PerpRaw) (assets : List AssetRaw) (totalEquity : ℚ)
    (startDate endDate : Int) (hT : 0 < totalNotional raw) :
    (∃ out, process_dydxv4_positions raw assets totalEquity startDate endDate
      = Except.ok out) ∧
    ((prorataEquity (openPerps raw) (totalNotional raw) totalEquity).map
        (fun p => p.equity.getD 0)).sum = totalEquity ∧
    (0 ≤ totalEquity →
      ∀ p ∈ prorataEquity (openPerps raw) (totalNotional raw) totalEquity,
        0 ≤ p.equity.getD 0) ∧
    ∀ raw2 : List PerpRaw2, 0 < totalAccountPositionValue raw2 →
      ((attributedOpenRows raw2 totalEquity).map BPos.equity).sum = totalEquity ∧
      (0 ≤ totalEquity → ∀ q ∈ attributedOpenRows raw2 totalEquity, 0 ≤ q.equity) := by
  have hTne : totalNotional raw ≠ 0 := ne_of_gt hT
  refine ⟨?_, ?_, ?_, ?_⟩
  · unfold process_dydxv4_positions
    rw [if_neg (fun hc => hTne hc.2)]
    exact ⟨_, rfl⟩
  · have hmap : (prorataEquity (openPerps raw) (totalNotional raw) totalEquity).map
        (fun p => p.equity.getD 0)
        = ((openPerps raw).map (fun p => p.notional.getD 0)).map
            (fun n => n / totalNotional raw * totalEquity) := by
      unfold prorataEquity
      rw [List.map_map, List.map_map]
      rfl
    rw [hmap]
    exact sum_prorata _ totalEquity hTne
  · intro hE p hp
    unfold prorataEquity at hp
    obtain ⟨q, hq, rfl⟩ := List.mem_map.1 hp
    exact mul_nonneg
      (div_nonneg (openPerps_notional_nonneg raw q hq) (le_of_lt hT)) hE
  · intro raw2 hT2
    have hT2ne : totalAccountPositionValue raw2 ≠ 0 := ne_of_gt hT2
    constructor
    · have hmap : (attributedOpenRows raw2 totalEquity).map BPos.equity
          = ((openRows raw2).map (fun p => |positionValue p|)).map
              (fun n => n / totalAccountPositionValue raw2 * totalEquity) := by
        unfold attributedOpenRows
        rw [List.map_map, List.map_map]
        apply List.map_congr_left
        intro p _
        simp [Function.comp, mkBPos, hT2ne]
      rw [hmap]
      exact sum_prorata _ totalEquity hT2ne
    · intro hE q hq
      unfold attributedOpenRows at hq
      obtain ⟨p, -, rfl⟩ := List.mem_map.1 hq
      show 0 ≤ (if totalAccountPositionValue raw2 ≠ 0
          then |positionValue p| / totalAccountPositionValue raw2 else 0) * totalEquity
      rw [if_pos hT2ne]
      exact mul_nonneg (div_nonneg (abs_nonneg _) (le_of_lt hT2)) hE

/-- C1 witness: an account with open notionals 300 and 700 and total
equity 1000 attributes equities summing to 1000. -/
theorem c1_prorata_equity_witness :
    ((prorataEquity (openPerps [⟨"OPEN", 3, 100, 100, 0, "A-USD"⟩, ⟨"OPEN", 7, 100, 100, 0, "B-USD"⟩])
        (totalNotional [⟨"OPEN", 3, 100, 100, 0, "A-USD"⟩, ⟨"OPEN", 7, 100, 100, 0, "B-USD"⟩])
        1000).map (fun p => p.equity.getD 0)).sum = 1000 :=
  (c1_prorata_equity [⟨"OPEN", 3, 100, 100, 0, "A-USD"⟩, ⟨"OPEN", 7, 100, 100, 0, "B-USD"⟩]
    [] 1000 0 0 (by norm_num [totalNotional, openPerps, createPerpPosition,
      List.filter])).2.1

/-- C5: for aligned nonempty return series, the beta kept by the estimator
is exactly the sample covariance over the last min(len, L) samples divided
by the sample variance of the benchmark over that window — only the most
recent rolling value — and a zero benchmark variance at that point yields
NaN with no exception. -/
theorem c5_beta_latest_rolling (asset_returns btc_returns : List ℚ) (L : Nat)
    (hne : asset_returns ≠ []) (hlen : asset_returns.length = btc_returns.length) :
    betaLast asset_returns btc_returns L =
      some (fdiv (sampleCov (lastWindow (min asset_returns.length L) asset_returns)
                            (lastWindow (min asset_returns.length L) btc_returns))
                 (sampleVar (lastWindow (min asset_returns.length L) btc_returns))) ∧
    (sampleVar (lastWindow (min asset_returns.length L) btc_returns) = some 0 →
      betaLast asset_returns btc_returns L = some FVal.nan) := by
  refine ⟨betaLast_spec asset_returns btc_returns L hne hlen, fun hvar => ?_⟩
  have hlw : (lastWindow (min asset_returns.length L) asset_returns).length
      = (lastWindow (min asset_returns.length L) btc_returns).length := by
    simp [lastWindow, hlen]
  rw [betaLast_spec asset_returns btc_returns L hne hlen,
    sampleCov_of_var_zero _ _ hlw hvar, hvar, fdiv_zero_zero]

/-- C5 witness: a concrete two-sample pair of return series. -/
theorem c5_beta_latest_rolling_witness :
    (betaLast [(1 : ℚ)/100, 2/100] [(3 : ℚ)/100, 1/100] 5 =
      some (fdiv (sampleCov (lastWindow (min ([(1 : ℚ)/100, 2/100]).length 5)
                              [(1 : ℚ)/100, 2/100])
                            (lastWindow (min ([(1 : ℚ)/100, 2/100]).length 5)
                              [(3 : ℚ)/100, 1/100]))
                 (sampleVar (lastWindow (min ([(1 : ℚ)/100, 2/100]).length 5)
                              [(3 : ℚ)/100, 1/100])))) ∧
    (sampleVar (lastWindow (min ([(1 : ℚ)/100, 2/100]).length 5) [(3 : ℚ)/100, 1/100])
        = some 0 →
      betaLast [(1 : ℚ)/100, 2/100] [(3 : ℚ)/100, 1/100] 5 = some FVal.nan) :=
  c5_beta_latest_rolling [(1 : ℚ)/100, 2/100] [(3 : ℚ)/100, 1/100] 5
    (by simp) (by simp)

theorem betaRow_of_not_stable (F : String → FVal × FVal) (t : BRow)
    (h : t.asset_type ≠ some "STABLE") :
    betaRow F t =
      { t with beta_daily := (F t.base_asset).1, beta_weekly := (F t.base_asset).2 } := by
  unfold betaRow
  rw [if_neg h]

theorem betaRow_of_stable (F : String → FVal × FVal) (t : BRow)
    (h : t.asset_type = some "STABLE") :
    betaRow F t = { t with beta_daily := FVal.fin 0, beta_weekly := FVal.fin 0 } := by
  unfold betaRow
  rw [if_pos h]

theorem fallback_general (F1 F2 : String → FVal × FVal) (rows : List BRow)
    (hidx : (rows.map BRow.idx).Nodup) (r s : BRow) (hr : r ∈ rows) (hs : s ∈ rows)
    (hrStable : r.asset_type ≠ some "STABLE") (hsStable : s.asset_type ≠ some "STABLE")
    (b c d : ℚ)
    (h1 : F1 r.base_asset = (FVal.nan, FVal.nan))
    (h2 : F2 r.base_asset = (FVal.fin b, FVal.fin c))
    (h3 : (F1 s.base_asset).1 = FVal.fin d) :
    (∃ r2 ∈ updateBetas (rows.map (betaRow F1))
        (((rows.map (betaRow F1)).filter (fun t => decide (t.base_asset ∈
            ((rows.map (betaRow F1)).filter
              (fun t => decide (t.beta_daily = FVal.nan))).map BRow.base_asset))).map
          (betaRow F2)),
        r2.idx = r.idx ∧ r2.beta_daily = FVal.fin b ∧ r2.beta_weekly = FVal.fin c) ∧
    (∃ s2 ∈ updateBetas (rows.map (betaRow F1))
        (((rows.map (betaRow F1)).filter (fun t => decide (t.base_asset ∈
            ((rows.map (betaRow F1)).filter
              (fun t => decide (t.beta_daily = FVal.nan))).map BRow.base_asset))).map
          (betaRow F2)),
        s2.idx = s.idx ∧ s2.beta_daily = FVal.fin d ∧
        s2.beta_weekly = (F1 s.base_asset).2) := by
  have injOn := List.inj_on_of_nodup_map hidx
  set rows1 := rows.map (betaRow F1) with hrows1
  set missing := (rows1.filter (fun t => decide (t.beta_daily = FVal.nan))).map
    BRow.base_asset with hmissing
  set missingRows := rows1.filter (fun t => decide (t.base_asset ∈ missing))
    with hmissingRows
  set rows2 := missingRows.map (betaRow F2) with hrows2
  have hr1eq : betaRow F1 r = { r with beta_daily := FVal.nan, beta_weekly := FVal.nan } := by
    rw [betaRow_of_not_stable F1 r hrStable, h1]
  have hr2eq : betaRow F2 (betaRow F1 r) =
      { r with beta_daily := FVal.fin b, beta_weekly := FVal.fin c } := by
    have hstb : (betaRow F1 r).asset_type ≠ some "STABLE" := by
      rw [betaRow_asset_type]
      exact hrStable
    rw [betaRow_of_not_stable F2 (betaRow F1 r) hstb, betaRow_base_asset, h2,
      betaRow_idx, betaRow_asset_type]
  have hr1 : betaRow F1 r ∈ rows1 := List.mem_map_of_mem _ hr
  have hr1d : (betaRow F1 r).beta_daily = FVal.nan := by rw [hr1eq]
  have hXmem : r.base_asset ∈ missing := by
    rw [hmissing]
    refine List.mem_map.2 ⟨betaRow F1 r, ?_, betaRow_base_asset F1 r⟩
    exact List.mem_filter.2 ⟨hr1, by simp [hr1d]⟩
  have hrMissing : betaRow F1 r ∈ missingRows := by
    rw [hmissingRows]
    refine List.mem_filter.2 ⟨hr1, ?_⟩
    rw [betaRow_base_asset]
    exact decide_eq_true hXmem
  have hr2 : betaRow F2 (betaRow F1 r) ∈ rows2 := List.mem_map_of_mem _ hrMissing
  constructor
  · -- the failing asset gets the secondary-source betas
    have hfind : rows2.find? (fun t => decide (t.idx = (betaRow F1 r).idx))
        = some (betaRow F2 (betaRow F1 r)) := by
      cases hf : rows2.find? (fun t => decide (t.idx = (betaRow F1 r).idx)) with
      | none =>
          exfalso
          rw [List.find?_eq_none] at hf
          refine hf _ hr2 ?_
          simp [betaRow_idx]
      | some t =>
          have ht2 : t ∈ rows2 := List.mem_of_find?_eq_some hf
          have htidx := List.find?_some hf
          rw [decide_eq_true_eq] at htidx
          rw [hrows2] at ht2
          obtain ⟨t1, ht1mem, rfl⟩ := List.mem_map.1 ht2
          rw [hmissingRows] at ht1mem
          have ht1rows1 := (List.mem_filter.1 ht1mem).1
          rw [hrows1] at ht1rows1
          obtain ⟨t0, ht0, rfl⟩ := List.mem_map.1 ht1rows1
          have ht0idx : t0.idx = r.idx := by
            rwa [betaRow_idx, betaRow_idx, betaRow_idx] at htidx
          obtain rfl := injOn ht0 hr ht0idx
          rfl
    have hupd : updRow rows2 (betaRow F1 r)
        = { r with beta_daily := FVal.fin b, beta_weekly := FVal.fin c } := by
      unfold updRow
      rw [hfind, hr2eq, hr1eq]
      simp
    refine ⟨updRow rows2 (betaRow F1 r), ?_, ?_, ?_, ?_⟩
    · unfold updateBetas
      exact List.mem_map_of_mem _ hr1
    · rw [hupd]
    · rw [hupd]
    · rw [hupd]
  · -- an asset that succeeded on the primary source keeps its betas
    have hs1 : betaRow F1 s ∈ rows1 := List.mem_map_of_mem _ hs
    have hs1eq : betaRow F1 s =
        { s with beta_daily := FVal.fin d, beta_weekly := (F1 s.base_asset).2 } := by
      rw [betaRow_of_not_stable F1 s hsStable, h3]
    have hsNotMissing : s.base_asset ∉ missing := by
      intro hmem
      rw [hmissing] at hmem
      obtain ⟨u, hu, hub⟩ := List.mem_map.1 hmem
      have huf := List.mem_filter.1 hu
      have hud : u.beta_daily = FVal.nan := by simpa using huf.2
      have hurows1 := huf.1
      rw [hrows1] at hurows1
      obtain ⟨u0, hu0, rfl⟩ := List.mem_map.1 hurows1
      rw [betaRow_base_asset] at hub
      by_cases hst : u0.asset_type = some "STABLE"
      · have h0 : (betaRow F1 u0).beta_daily = FVal.fin 0 := by
          rw [betaRow_of_stable F1 u0 hst]
        rw [h0] at hud
        cases hud
      · have h0 : (betaRow F1 u0).beta_daily = (F1 u0.base_asset).1 := by
          rw [betaRow_of_not_stable F1 u0 hst]
        rw [h0, hub, h3] at hud
        cases hud
    have hfindNone : rows2.find? (fun t => decide (t.idx = (betaRow F1 s).idx))
        = none := by
      rw [List.find?_eq_none]
      intro x hx
      rw [hrows2] at hx
      obtain ⟨t1, ht1, rfl⟩ := List.mem_map.1 hx
      rw [hmissingRows] at ht1
      have ht1f := List.mem_filter.1 ht1
      have ht1m : t1.base_asset ∈ missing := by simpa using ht1f.2
      have ht1rows1 := ht1f.1
      rw [hrows1] at ht1rows1
      obtain ⟨t0, ht0, rfl⟩ := List.mem_map.1 ht1rows1
      simp only [betaRow_idx, decide_eq_true_eq]
      intro hidx0
      obtain rfl := injOn ht0 hs hidx0
      rw [betaRow_base_asset] at ht1m
      exact hsNotMissing ht1m
    have hupds : updRow rows2 (betaRow F1 s) = betaRow F1 s := by
      unfold updRow
      rw [hfindNone]
    refine ⟨updRow rows2 (betaRow F1 s), ?_, ?_, ?_, ?_⟩
    · unfold updateBetas
      exact List.mem_map_of_mem _ hs1
    · rw [hupds, hs1eq]
    · rw [hupds, hs1eq]
    · rw [hupds, hs1eq]

/-- C4: the historical-data source fallback is evaluated per asset: a
non-stable row whose base asset got NaN betas from the primary source but
finite betas from the secondary source leaves the pipeline carrying the
secondary-source values, while a row whose asset got a finite daily beta
from the primary source keeps its primary-source betas (it is not in the
missing set, so the update never touches it). -/
theorem c4_per_asset_source_fallback
    (primary secondary : String → Option (List ℚ)) (resampleW : List ℚ → List ℚ)
    (btc1 btc2 : List ℚ) (L : Nat) (rows : List BRow)
    (hidx : (rows.map BRow.idx).Nodup) (r s : BRow)
    (hr : r ∈ rows) (hs : s ∈ rows)
    (hrStable : r.asset_type ≠ some "STABLE") (hsStable : s.asset_type ≠ some "STABLE")
    (b c d : ℚ)
    (h1 : betasOf primary resampleW btc1 L r.base_asset = (FVal.nan, FVal.nan))
    (h2 : betasOf secondary resampleW btc2 L r.base_asset = (FVal.fin b, FVal.fin c))
    (h3 : (betasOf primary resampleW btc1 L s.base_asset).1 = FVal.fin d) :
    (∃ r2 ∈ mainBetaFallback primary secondary resampleW btc1 btc2 L rows,
        r2.idx = r.idx ∧ r2.beta_daily = FVal.fin b ∧ r2.beta_weekly = FVal.fin c) ∧
    (∃ s2 ∈ mainBetaFallback primary secondary resampleW btc1 btc2 L rows,
        s2.idx = s.idx ∧ s2.beta_daily = FVal.fin d ∧
        s2.beta_weekly = (betasOf primary resampleW btc1 L s.base_asset).2) := by
  have h := fallback_general (betasOf primary resampleW btc1 L)
    (betasOf secondary resampleW btc2 L) rows hidx r s hr hs hrStable hsStable
    b c d h1 h2 h3
  have hpipe : mainBetaFallback primary secondary resampleW btc1 btc2 L rows
      = updateBetas (rows.map (betaRow (betasOf primary resampleW btc1 L)))
          (((rows.map (betaRow (betasOf primary resampleW btc1 L))).filter
              (fun t => decide (t.base_asset ∈
                ((rows.map (betaRow (betasOf primary resampleW btc1 L))).filter
                  (fun t => decide (t.beta_daily = FVal.nan))).map BRow.base_asset))).map
            (betaRow (betasOf secondary resampleW btc2 L))) := by
    simp only [mainBetaFallback, add_beta_eq_map]
  rw [hpipe]
  exact h

theorem c4PctEval : pctChange [1, 2, 2] = [(1 : ℚ), 0] := by
  norm_num [pctChange, List.zip]

theorem c4BetaEval : betaLast [(1 : ℚ), 0] [(1 : ℚ), 0] 180 = some (FVal.fin 1) := by
  rw [betaLast_spec _ _ _ (by simp) rfl]
  norm_num [lastWindow, sampleCov, sampleVar, sampleMean, fdiv, List.zip]

theorem c4BetasOfEvalY :
    betasOf (fun a => if a = "X" then none else some [(1 : ℚ), 2, 2]) id
      [(1 : ℚ), 2, 2] 180 "Y" = (FVal.fin 1, FVal.fin 1) := by
  have hfetch : (fun a => if a = "X" then none else some [(1 : ℚ), 2, 2]) "Y"
      = some [(1 : ℚ), 2, 2] := by simp +decide
  simp only [betasOf, assetBetas, hfetch, id_eq, c4PctEval, c4BetaEval]

theorem c4BetasOfEvalX :
    betasOf (fun a => if a = "X" then none else some [(1 : ℚ), 2, 2]) id
      [(1 : ℚ), 2, 2] 180 "X" = (FVal.nan, FVal.nan) := by
  simp [betasOf, assetBetas]

theorem c4BetasOfEvalSec :
    betasOf (fun _ => some [(1 : ℚ), 2, 2]) id [(1 : ℚ), 2, 2] 180 "X"
      = (FVal.fin 1, FVal.fin 1) := by
  simp only [betasOf, assetBetas, id_eq, c4PctEval, c4BetaEval]

theorem c4EvalY1 :
    (betasOf (fun a => if a = "X" then none else some [(1 : ℚ), 2, 2]) id
      [(1 : ℚ), 2, 2] 180 "Y").1 = FVal.fin 1 := by
  rw [c4BetasOfEvalY]

/-- C4 witness: with a primary source missing asset X (row 0) but serving
asset Y (row 1), and a secondary source serving X, the pipeline ends with
secondary betas on the X row and primary betas on the Y row. -/
theorem c4_per_asset_source_fallback_witness :
    (∃ r2 ∈ mainBetaFallback (fun a => if a = "X" then none else some [(1 : ℚ), 2, 2])
        (fun _ => some [(1 : ℚ), 2, 2]) id [(1 : ℚ), 2, 2] [(1 : ℚ), 2, 2] 180
        [⟨0, "X", none, FVal.nan, FVal.nan⟩, ⟨1, "Y", none, FVal.nan, FVal.nan⟩],
        r2.idx = 0 ∧ r2.beta_daily = FVal.fin 1 ∧ r2.beta_weekly = FVal.fin 1) ∧
    (∃ s2 ∈ mainBetaFallback (fun a => if a = "X" then none else some [(1 : ℚ), 2, 2])
        (fun _ => some [(1 : ℚ), 2, 2]) id [(1 : ℚ), 2, 2] [(1 : ℚ), 2, 2] 180
        [⟨0, "X", none, FVal.nan, FVal.nan⟩, ⟨1, "Y", none, FVal.nan, FVal.nan⟩],
        s2.idx = 1 ∧ s2.beta_daily = FVal.fin 1 ∧
        s2.beta_weekly = (betasOf (fun a => if a = "X" then none else some [(1 : ℚ), 2, 2])
          id [(1 : ℚ), 2, 2] 180 "Y").2) :=
  c4_per_asset_source_fallback (fun a => if a = "X" then none else some [(1 : ℚ), 2, 2])
    (fun _ => some [(1 : ℚ), 2, 2]) id [(1 : ℚ), 2, 2] [(1 : ℚ), 2, 2] 180
    [⟨0, "X", none, FVal.nan, FVal.nan⟩, ⟨1, "Y", none, FVal.nan, FVal.nan⟩]
    (by decide)
    ⟨0, "X", none, FVal.nan, FVal.nan⟩ ⟨1, "Y", none, FVal.nan, FVal.nan⟩
    (by decide) (by decide) (by decide) (by decide) 1 1 1
    c4BetasOfEvalX c4BetasOfEvalSec c4EvalY1

/-- C9 witness: a concrete row with value 5 survives the filter and indeed
has absolute value at least 1. -/
theorem c9_small_value_filter_witness :
    ∃ v, (⟨"spot", none, 5, some 1, some 5, some 5, some 5⟩ : ERow).value = some v ∧
      1 ≤ |v| :=
  (c9_small_value_filter [⟨"spot", none, 5, some 1, some 5, some 5, some 5⟩]
    ⟨"spot", none, 5, some 1, some 5, some 5, some 5⟩).1 (by decide)
